import Mathlib

/-!
Verification development for the agent-permissions generator core.

Strings of the TypeScript source are modelled as `List Char` (JS strings as
sequences of UTF-16 units; all characters relevant here are in the BMP, where
the two views coincide). Each definition below is a shallow embedding of one
source function, named after it where Lean allows.
-/

namespace AgentPermissions

/-- Whitespace predicate modelling the character class trimmed by the JS
`String.prototype.trim` and skipped by `Number.parseFloat` (ASCII whitespace
plus NBSP and the BOM; other Unicode space characters do not occur in the
inputs this development reasons about). -/
def jsIsWhitespace (c : Char) : Bool :=
  c == ' ' || c == '\t' || c == '\n' || c == '\r' ||
  c == Char.ofNat 11 || c == Char.ofNat 12 || c == Char.ofNat 0xA0 || c == Char.ofNat 0xFEFF

/-- Model of `String.prototype.trim`: drop leading and trailing whitespace. -/
def jsTrim (s : List Char) : List Char :=
  ((s.dropWhile jsIsWhitespace).reverse.dropWhile jsIsWhitespace).reverse

/-- Model of `String.prototype.toLowerCase` for the ASCII range (the inputs
compared in the source are ASCII directive keys and agent tokens). -/
def jsToLower (s : List Char) : List Char :=
  s.map Char.toLower

/-- Model of `String.prototype.split` with a one-character separator:
`jsSplit sep s` returns the (possibly empty) segments between occurrences of
`sep`, so the result is never the empty list. -/
def jsSplit (sep : Char) : List Char → List (List Char)
  | [] => [[]]
  | c :: t =>
    if c == sep then [] :: jsSplit sep t
    else
      match jsSplit sep t with
      | [] => [[c]]
      | h :: r => (c :: h) :: r

/-- Model of `Array.prototype.join` with a one-character separator. -/
def jsJoin (sep : Char) (pieces : List (List Char)) : List Char :=
  List.intercalate [sep] pieces

/-- Model of `String.prototype.startsWith`: `startsWithL hay needle` is true
when `needle` is an initial segment of `hay` (purely literal comparison). -/
def startsWithL : List Char → List Char → Bool
  | _, [] => true
  | [], _ :: _ => false
  | c :: cs, p :: ps => c == p && startsWithL cs ps

/-- Model of `String.prototype.includes`: true when `needle` occurs
contiguously somewhere in `hay`. -/
def containsSub (hay needle : List Char) : Bool :=
  match hay with
  | [] => needle.isEmpty
  | _ :: t => startsWithL hay needle || containsSub t needle

/-- Model of splitting on the regular expression matching a newline with an
optional preceding carriage return: split on the newline character, then
remove a single trailing carriage return from each segment. -/
def jsLines (content : List Char) : List (List Char) :=
  (jsSplit '\n' content).map fun l => if l.getLast? == some '\r' then l.dropLast else l

/-! Robots rule engine (robots source file). -/

/-- Result of `Number.parseFloat`: a finite rational, NaN, or a signed
infinity (reachable through an explicit `Infinity` token; double overflow of
huge finite literals is not modelled, which no claim here depends on). -/
inductive JsNum where
  | finite (q : ℚ)
  | nan
  | posInf
  | negInf
deriving DecidableEq

def digitVal (c : Char) : Nat := c.toNat - '0'.toNat

def digitsToNat (ds : List Char) : Nat :=
  ds.foldl (fun acc c => 10 * acc + digitVal c) 0

def spanDigits (s : List Char) : List Char × List Char :=
  (s.takeWhile Char.isDigit, s.dropWhile Char.isDigit)

/-- Exponent part of a JS float literal: an optional sign then digits; when
the digits are missing `parseFloat` stops before the `e`, which is the same
as an exponent of zero. -/
def readExp (t : List Char) : Int :=
  let signed : Bool × List Char :=
    match t with
    | '-' :: r => (true, r)
    | '+' :: r => (false, r)
    | _ => (false, t)
  let ds := (spanDigits signed.2).1
  if ds.isEmpty then 0
  else if signed.1 then -(digitsToNat ds : Int) else (digitsToNat ds : Int)

/-- Model of `Number.parseFloat`: skip leading whitespace, read an optional
sign, then either the `Infinity` token or a decimal literal with optional
fraction and exponent; no digits at all gives NaN. The numeric value
(integer digits, fraction digits, decimal exponent) is formed as a single
integer quotient `mkRat`. -/
def jsParseFloat (s : List Char) : JsNum :=
  let s1 := s.dropWhile jsIsWhitespace
  let signed : Bool × List Char :=
    match s1 with
    | '-' :: t => (true, t)
    | '+' :: t => (false, t)
    | _ => (false, s1)
  let neg := signed.1
  let s2 := signed.2
  if startsWithL s2 "Infinity".toList then
    if neg then JsNum.negInf else JsNum.posInf
  else
    let intSpan := spanDigits s2
    let fracSpan : List Char × List Char :=
      match intSpan.2 with
      | '.' :: t => spanDigits t
      | _ => ([], intSpan.2)
    if intSpan.1.isEmpty && fracSpan.1.isEmpty then JsNum.nan
    else
      let mantissaNum : Nat := digitsToNat intSpan.1 * 10 ^ fracSpan.1.length + digitsToNat fracSpan.1
      let expVal : Int :=
        match fracSpan.2 with
        | 'e' :: t => readExp t
        | 'E' :: t => readExp t
        | _ => 0
      let num : Int := (mantissaNum * 10 ^ expVal.toNat : Nat)
      let den : Nat := 10 ^ (fracSpan.1.length + (-expVal).toNat)
      JsNum.finite (mkRat (if neg then -num else num) den)

/-- Shallow embedding of the `RobotsRules` interface: ordered disallow and
allow patterns and an optional crawl delay. -/
structure RobotsRules where
  disallow : List (List Char)
  allow : List (List Char)
  crawlDelay : Option ℚ
deriving DecidableEq

/-- The parser state of `parseRobots`: the rules accumulated so far and the
`applies` flag of the current user-agent block. -/
abbrev RobotsState := RobotsRules × Bool

/-- Agent token looked for inside user-agent values. -/
def agentToken : List Char := "agent-permissions".toList

/-- Condition under which a user-agent value opens an applicable block. -/
def uaMatches (value : List Char) : Bool :=
  let ua := jsToLower value
  ua == ['*'] || containsSub ua agentToken

/-- One iteration of the `parseRobots` loop on a raw line: trim, skip blank
and comment lines, split on colons into a key and a value, then dispatch on
the lowercased key exactly as the source does. The cleaned line of the
source is `jsTrim line`, its key is `jsToLower (jsTrim rawKey)` and its
value is `jsTrim (jsJoin ':' rest)`, written out at each use. -/
def processLine (st : RobotsState) (line : List Char) : RobotsState :=
  if (jsTrim line).isEmpty || (jsTrim line).headD ' ' == '#' then st
  else
    match jsSplit ':' (jsTrim line) with
    | [] => st
    | rawKey :: rest =>
      if rawKey.isEmpty || rest.isEmpty then st
      else if jsToLower (jsTrim rawKey) == "user-agent".toList then
        (st.1, uaMatches (jsTrim (jsJoin ':' rest)))
      else if !st.2 then st
      else if jsToLower (jsTrim rawKey) == "disallow".toList then
        if (jsTrim (jsJoin ':' rest)).isEmpty then st
        else ({ st.1 with disallow := st.1.disallow ++ [jsTrim (jsJoin ':' rest)] }, st.2)
      else if jsToLower (jsTrim rawKey) == "allow".toList then
        if (jsTrim (jsJoin ':' rest)).isEmpty then st
        else ({ st.1 with allow := st.1.allow ++ [jsTrim (jsJoin ':' rest)] }, st.2)
      else if jsToLower (jsTrim rawKey) == "crawl-delay".toList then
        match jsParseFloat (jsTrim (jsJoin ':' rest)) with
        | JsNum.finite d => ({ st.1 with crawlDelay := some d }, st.2)
        | _ => st
      else st

/-- Initial parser state: empty rules, no applicable block open. -/
def initRobotsState : RobotsState := (⟨[], [], none⟩, false)

/-- Shallow embedding of `parseRobots`: fold the line processor over the
lines of the content, starting from the empty rule set. -/
def parseRobots (content : List Char) : RobotsRules :=
  ((jsLines content).foldl processLine initRobotsState).1

/-- True when a raw line is a user-agent directive whose value opens an
applicable block, that is, when processing the line turns the applies flag
on; every other line leaves a false applies flag false. -/
def setsApplies (line : List Char) : Bool :=
  if (jsTrim line).isEmpty || (jsTrim line).headD ' ' == '#' then false
  else
    match jsSplit ':' (jsTrim line) with
    | [] => false
    | rawKey :: rest =>
      if rawKey.isEmpty || rest.isEmpty then false
      else
        jsToLower (jsTrim rawKey) == "user-agent".toList &&
          uaMatches (jsTrim (jsJoin ':' rest))

/-- Proposition that a raw line is a crawl-delay directive whose value
parses to the finite number d. -/
def crawlDelayDirective (line : List Char) (d : ℚ) : Prop :=
  ∃ rawKey rest, jsSplit ':' (jsTrim line) = rawKey :: rest ∧
    jsToLower (jsTrim rawKey) = "crawl-delay".toList ∧
    jsParseFloat (jsTrim (jsJoin ':' rest)) = JsNum.finite d

/-- Shallow embedding of `matchesRule`: empty and root patterns match
everything, a pattern with a trailing dollar requires equality with the
pattern minus that dollar, anything else is a literal starts-with test. -/
def matchesRule (targetPath rulePath : List Char) : Bool :=
  if rulePath.isEmpty || rulePath == ['/'] then true
  else if rulePath.getLast? == some '$' then targetPath == rulePath.dropLast
  else startsWithL targetPath rulePath

/-- The second loop of `isPathAllowed`: first matching disallow pattern
yields false, exhaustion yields true. -/
def disallowScan (p : List Char) : List (List Char) → Bool
  | [] => true
  | d :: rest => if matchesRule p d then false else disallowScan p rest

/-- The first loop of `isPathAllowed`: first matching allow pattern yields
true immediately, exhaustion falls through to the disallow loop. -/
def allowScan (p : List Char) (disallowList : List (List Char)) : List (List Char) → Bool
  | [] => disallowScan p disallowList
  | a :: rest => if matchesRule p a then true else allowScan p disallowList rest

/-- Normalization applied by `isPathAllowed`: an empty path becomes the
root. -/
def normalizePath (path : List Char) : List Char :=
  if path.isEmpty then ['/'] else path

/-- Shallow embedding of `isPathAllowed`: absent rules allow everything; an
empty path is normalized to the root before the two scans run. -/
def isPathAllowed (path : List Char) : Option RobotsRules → Bool
  | none => true
  | some rules => allowScan (normalizePath path) rules.disallow rules.allow

/-! Crawl extraction: the truncation step (crawler source file). -/

/-- Truncation marker appended by `truncate`. -/
def ellipsis : List Char := ['.', '.', '.']

/-- Shallow embedding of `truncate`: content at or under the ceiling is
returned unchanged, longer content is cut to the ceiling and the marker is
appended. -/
def truncate (text : List Char) (maxLength : Nat) : List Char :=
  if text.length ≤ maxLength then text else text.take maxLength ++ ellipsis

/-- The truncation flag computed by the extraction step: the untruncated
length compared against the length of the truncated content, marker
included, exactly as `rawText.length > textContent.length` in the source
(the HTML flag is computed by the same expression with the HTML ceiling). -/
def isTruncatedFlag (raw : List Char) (maxChars : Nat) : Bool :=
  (truncate raw maxChars).length < raw.length

/-! Policy document model (page source file): JSON values, the tolerant
parser `parsePolicy`, and the builder `buildQuickPolicy`. -/

/-- JSON values as produced by the platform JSON decoder. Objects are field
lists in document order; the decoder never produces duplicate keys. -/
inductive Json where
  | null
  | bool (b : Bool)
  | num (q : ℚ)
  | str (s : List Char)
  | arr (elems : List Json)
  | obj (fields : List (List Char × Json))

instance : Inhabited Json := ⟨Json.null⟩

/-- Field lookup in a decoded object. -/
def lookupField (k : List Char) : List (List Char × Json) → Option Json
  | [] => none
  | (key, v) :: rest => if key == k then some v else lookupField k rest

/-- Model of JS property access on a JSON-decoded value: a missing field or
a non-object base gives undefined (`none`); access on `null` throws and is
handled where it can occur. -/
def jsField (j : Json) (k : List Char) : Option Json :=
  match j with
  | Json.obj fs => lookupField k fs
  | _ => none

/-- Values whose JS `typeof` is the string `object`: null, arrays and
objects. -/
def jsTypeofIsObject : Json → Bool
  | Json.null => true
  | Json.arr _ => true
  | Json.obj _ => true
  | _ => false

/-- JS truthiness of a JSON-decoded value (empty arrays and objects are
truthy; null, false, zero and the empty string are falsy). -/
def jsTruthy : Json → Bool
  | Json.null => false
  | Json.bool b => b
  | Json.num q => !(q == 0)
  | Json.str s => !s.isEmpty
  | Json.arr _ => true
  | Json.obj _ => true

/-- One resource rule as recovered by `parsePolicy`: the three validated
fields plus the modifiers value passed through unvalidated. -/
structure ResourceRule where
  verb : List Char
  selector : List Char
  allowed : Bool
  modifiers : Option Json

/-- One action guideline as recovered by `parsePolicy`. -/
structure Guideline where
  directive : List Char
  description : List Char
  exceptions : Option Json

/-- Result shape of `parsePolicy`. -/
structure ParsedPolicy where
  error : Option (List Char)
  metadata : Option Json
  resourceRules : List ResourceRule
  actionGuidelines : List Guideline

/-- True when the field k of j is present with a string value, modelling the
check that typeof of the property is the string type. -/
def isStringField (j : Json) (k : List Char) : Bool :=
  match jsField j k with
  | some (Json.str _) => true
  | _ => false

/-- True when the field k of j is present with a boolean value. -/
def isBoolField (j : Json) (k : List Char) : Bool :=
  match jsField j k with
  | some (Json.bool _) => true
  | _ => false

/-- String value of a field known by the filter to be a string; the default
branch is unreachable under the filters below. -/
def getStrField (j : Json) (k : List Char) : List Char :=
  match jsField j k with
  | some (Json.str v) => v
  | _ => []

/-- Boolean value of a field known by the filter to be a boolean. -/
def getBoolField (j : Json) (k : List Char) : Bool :=
  match jsField j k with
  | some (Json.bool b) => b
  | _ => false

/-- The resource-rule filter of `parsePolicy`: the candidate is truthy and
has a string verb, a string selector and a boolean allowed. -/
def ruleFilter (j : Json) : Bool :=
  jsTruthy j && isStringField j "verb".toList && isStringField j "selector".toList &&
    isBoolField j "allowed".toList

/-- The map step following the resource-rule filter: extract the three
validated fields and pass the modifiers value through unvalidated. -/
def extractRule (j : Json) : ResourceRule :=
  { verb := getStrField j "verb".toList
    selector := getStrField j "selector".toList
    allowed := getBoolField j "allowed".toList
    modifiers := jsField j "modifiers".toList }

/-- The action-guideline filter of `parsePolicy`: truthy candidate with a
string directive and a string description. -/
def guidelineFilter (j : Json) : Bool :=
  jsTruthy j && isStringField j "directive".toList && isStringField j "description".toList

/-- The map step following the guideline filter. -/
def extractGuideline (j : Json) : Guideline :=
  { directive := getStrField j "directive".toList
    description := getStrField j "description".toList
    exceptions := jsField j "exceptions".toList }

/-- Message of the TypeError thrown when the decoded value is `null` and the
metadata property access runs on it; caught by the enclosing try. -/
def nullAccessMessage : List Char := "Cannot read properties of null".toList

/-- Body of the try block of `parsePolicy`, applied to the decoded JSON
value: metadata passes through when its typeof is object and it is truthy,
resource rules and action guidelines are tolerantly filtered. -/
def parsePolicyData (data : Json) : ParsedPolicy :=
  match data with
  | Json.null =>
    { error := some nullAccessMessage, metadata := none
      resourceRules := [], actionGuidelines := [] }
  | _ =>
    let metadata : Option Json :=
      match jsField data "metadata".toList with
      | some m => if jsTypeofIsObject m && jsTruthy m then some m else none
      | none => none
    let ruleCandidates : List Json :=
      match jsField data "resource_rules".toList with
      | some (Json.arr xs) => xs
      | _ => []
    let guidelineCandidates : List Json :=
      match jsField data "action_guidelines".toList with
      | some (Json.arr xs) => xs
      | _ => []
    { error := none
      metadata := metadata
      resourceRules := (ruleCandidates.filter ruleFilter).map extractRule
      actionGuidelines := (guidelineCandidates.filter guidelineFilter).map extractGuideline }

/-- Shallow embedding of `parsePolicy`. The platform JSON decoder is not
part of this repository; its outcome on the raw text is the `decoded`
argument (`Except.error` carries the thrown message). Blank input returns
the empty result before any decoding is attempted. -/
def parsePolicy (raw : List Char) (decoded : Except (List Char) Json) : ParsedPolicy :=
  if (jsTrim raw).isEmpty then
    { error := none, metadata := none, resourceRules := [], actionGuidelines := [] }
  else
    match decoded with
    | Except.ok data => parsePolicyData data
    | Except.error msg =>
      { error := some msg, metadata := none, resourceRules := [], actionGuidelines := [] }

/-- Rate-limit choice of the quick builder. The third source value is the
string open, which is a Lean keyword, hence the name `unlimited`. -/
inductive RateLimit where
  | gentle
  | standard
  | unlimited

/-- Configuration of the quick builder. -/
structure QuickBuilderState where
  siteName : List Char
  allowReadContent : Bool
  allowReadMetadata : Bool
  allowNavigation : Bool
  allowForms : Bool
  requireHumanForForms : Bool
  blockLogin : Bool
  rateLimit : RateLimit
  allowDownloads : Bool

/-- Shallow embedding of `buildRateLimit`: no modifier for the open choice,
fixed rate-limit objects for standard and gentle. -/
def buildRateLimit : RateLimit → Option Json
  | RateLimit.unlimited => none
  | RateLimit.standard =>
    some (Json.obj [("rate_limit".toList,
      Json.obj [("max_requests".toList, Json.num 5), ("window_seconds".toList, Json.num 10)])])
  | RateLimit.gentle =>
    some (Json.obj [("rate_limit".toList,
      Json.obj [("max_requests".toList, Json.num 1), ("window_seconds".toList, Json.num 1)])])

/-- Modifier attached to the two form rules when forms are allowed and human
confirmation is required. -/
def humanInTheLoop : Json := Json.obj [("human_in_the_loop".toList, Json.bool true)]

/-- The rules array of `buildQuickPolicy` (source lines defining `rules`),
one record per rule in emission order; an absent modifiers entry models the
undefined-and-deleted modifiers of the source. -/
def quickRules (state : QuickBuilderState) : List ResourceRule :=
  [ { verb := "read_content".toList, selector := "*".toList,
      allowed := state.allowReadContent, modifiers := none },
    { verb := "read_metadata".toList, selector := "*".toList,
      allowed := state.allowReadMetadata, modifiers := none },
    { verb := "follow_link".toList, selector := "*".toList,
      allowed := state.allowNavigation,
      modifiers := if state.allowNavigation then buildRateLimit state.rateLimit else none },
    { verb := "set_input_value".toList,
      selector := "form input, form textarea, form select, form option, form button".toList,
      allowed := state.allowForms,
      modifiers := if state.allowForms && state.requireHumanForForms then some humanInTheLoop else none },
    { verb := "submit_form".toList, selector := "form".toList,
      allowed := state.allowForms,
      modifiers := if state.allowForms && state.requireHumanForForms then some humanInTheLoop else none },
    { verb := "execute_script".toList, selector := "*".toList,
      allowed := false, modifiers := none },
    { verb := "upload_file".toList, selector := "input[type=\x27file\x27]".toList,
      allowed := false, modifiers := none },
    { verb := "download_file".toList,
      selector := (if state.allowDownloads then "*" else "a[download], [role=\x27button\x27]").toList,
      allowed := state.allowDownloads, modifiers := none } ]

/-- The guidelines array of `buildQuickPolicy`: the four conditional entries
in source order, with the null entries filtered away. -/
def quickGuidelines (state : QuickBuilderState) : List Guideline :=
  (if state.blockLogin then
    [ { directive := "MUST NOT".toList,
        description := "Attempt to log in or submit credentials, MFA codes, or session tokens.".toList,
        exceptions := none } ]
   else []) ++
  (if state.allowForms then
    [ { directive := "SHOULD".toList,
        description :=
          (if state.requireHumanForForms then
            "Confirm with a human before submitting forms or irreversible actions."
           else
            "Keep form submissions minimal and avoid sensitive personal data.").toList,
        exceptions := none } ]
   else []) ++
  (match state.rateLimit with
   | RateLimit.gentle =>
     [ { directive := "SHOULD".toList,
         description := "Throttle navigation to roughly one request per second.".toList,
         exceptions := none } ]
   | _ => []) ++
  (match state.rateLimit with
   | RateLimit.standard =>
     [ { directive := "SHOULD".toList,
         description := "Stay within ~5 requests every 10 seconds to reduce load.".toList,
         exceptions := none } ]
   | _ => [])

/-- JSON encoding of one emitted resource rule; the modifiers field is
present exactly when the source kept it (undefined modifiers are deleted
before serialization). -/
def encodeRule (r : ResourceRule) : Json :=
  Json.obj ([("verb".toList, Json.str r.verb),
             ("selector".toList, Json.str r.selector),
             ("allowed".toList, Json.bool r.allowed)] ++
    (match r.modifiers with
     | some m => [("modifiers".toList, m)]
     | none => []))

/-- JSON encoding of one emitted guideline (built guidelines never carry an
exceptions field, and an absent one is not serialized). -/
def encodeGuideline (g : Guideline) : Json :=
  Json.obj ([("directive".toList, Json.str g.directive),
             ("description".toList, Json.str g.description)] ++
    (match g.exceptions with
     | some e => [("exceptions".toList, e)]
     | none => []))

/-- Metadata object of the built policy: fixed schema version, the build
timestamp, and the author only when the trimmed site name is non-empty. -/
def buildMetadata (state : QuickBuilderState) (now : List Char) : Json :=
  Json.obj ([("schema_version".toList, Json.str "1.0.0".toList),
             ("last_updated".toList, Json.str now)] ++
    (if (jsTrim state.siteName).isEmpty then []
     else [("author".toList, Json.str (jsTrim state.siteName))]))

/-- Shallow embedding of `buildQuickPolicy` at the JSON level: the object
serialized by the source (`now` is the build timestamp string; JSON
serialization followed by JSON decoding is the identity on these values,
so the round trip through the raw string is modelled by handing the value
through). -/
def buildQuickPolicy (state : QuickBuilderState) (now : List Char) : Json :=
  Json.obj [("metadata".toList, buildMetadata state now),
            ("resource_rules".toList, Json.arr ((quickRules state).map encodeRule)),
            ("action_guidelines".toList, Json.arr ((quickGuidelines state).map encodeGuideline))]

/-- The default quick-builder configuration of the source. -/
def DEFAULT_QUICK_STATE : QuickBuilderState :=
  { siteName := []
    allowReadContent := true
    allowReadMetadata := true
    allowNavigation := true
    allowForms := true
    requireHumanForForms := false
    blockLogin := false
    rateLimit := RateLimit.unlimited
    allowDownloads := true }

/-! Helper lemmas. -/

theorem startsWithL_iff (p r : List Char) : startsWithL p r = true ↔ ∃ t, p = r ++ t := by
  induction r generalizing p with
  | nil => simp [startsWithL]
  | cons x xs ih =>
    cases p with
    | nil => simp [startsWithL]
    | cons c cs =>
      simp only [startsWithL, Bool.and_eq_true, beq_iff_eq, ih, List.cons_append,
        List.cons.injEq]
      constructor
      · rintro ⟨rfl, t, rfl⟩
        exact ⟨t, rfl, rfl⟩
      · rintro ⟨t, rfl, rfl⟩
        exact ⟨rfl, t, rfl⟩

theorem disallowScan_eq_true (p : List Char) (ds : List (List Char)) :
    disallowScan p ds = true ↔ ∀ d ∈ ds, matchesRule p d = false := by
  induction ds with
  | nil => simp [disallowScan]
  | cons d rest ih =>
    cases h : matchesRule p d with
    | true => simp [disallowScan, h]
    | false => simp [disallowScan, h, ih]

theorem allowScan_eq_true (p : List Char) (ds as : List (List Char)) :
    allowScan p ds as = true ↔
      (∃ a ∈ as, matchesRule p a = true) ∨ ∀ d ∈ ds, matchesRule p d = false := by
  induction as with
  | nil => simp [allowScan, disallowScan_eq_true]
  | cons a rest ih =>
    cases h : matchesRule p a with
    | true =>
      constructor
      · intro _
        exact Or.inl ⟨a, List.mem_cons_self a rest, h⟩
      · intro _
        simp [allowScan, h]
    | false => simp [allowScan, h, ih]

theorem truncate_length (raw : List Char) (maxChars : Nat) :
    (truncate raw maxChars).length =
      if raw.length ≤ maxChars then raw.length else maxChars + ellipsis.length := by
  unfold truncate
  by_cases h : raw.length ≤ maxChars
  · simp [h]
  · simp only [h, if_neg, ite_false, List.length_append, List.length_take, ellipsis,
      List.length_cons, List.length_nil]
    omega

theorem processLine_not_applies (r : RobotsRules) (line : List Char)
    (h : setsApplies line = false) :
    processLine (r, false) line = (r, false) := by
  unfold processLine
  unfold setsApplies at h
  split
  · rfl
  · next hblank =>
    rw [if_neg hblank] at h
    split
    · rfl
    · next rawKey rest hsplit =>
      rw [hsplit] at h
      dsimp only at h
      split
      · rfl
      · next hempt =>
        rw [if_neg hempt] at h
        split
        · next hkey =>
          rw [hkey, Bool.true_and] at h
          rw [h]
        · split
          · rfl
          · next hflag => exact absurd rfl hflag

theorem foldl_processLine_no_applies (lines : List (List Char)) (r : RobotsRules)
    (h : ∀ l ∈ lines, setsApplies l = false) :
    lines.foldl processLine (r, false) = (r, false) := by
  induction lines with
  | nil => rfl
  | cons l rest ih =>
    rw [List.foldl_cons, processLine_not_applies r l (h l (List.mem_cons_self l rest))]
    exact ih fun l' hl' => h l' (List.mem_cons_of_mem l hl')

theorem processLine_crawlDelay (st : RobotsState) (line : List Char) :
    (processLine st line).1.crawlDelay = st.1.crawlDelay ∨
    ∃ d, crawlDelayDirective line d ∧ (processLine st line).1.crawlDelay = some d := by
  unfold processLine
  split
  · exact Or.inl rfl
  · split
    · exact Or.inl rfl
    · next rawKey rest hsplit =>
      split
      · exact Or.inl rfl
      · split
        · exact Or.inl rfl
        · split
          · exact Or.inl rfl
          · split
            · split
              · exact Or.inl rfl
              · exact Or.inl rfl
            · split
              · split
                · exact Or.inl rfl
                · exact Or.inl rfl
              · split
                · next hkey =>
                  cases hpf : jsParseFloat (jsTrim (jsJoin ':' rest)) with
                  | finite d =>
                    exact Or.inr ⟨d, ⟨rawKey, rest, hsplit, eq_of_beq hkey, hpf⟩, rfl⟩
                  | nan => exact Or.inl rfl
                  | posInf => exact Or.inl rfl
                  | negInf => exact Or.inl rfl
                · exact Or.inl rfl

theorem foldl_crawlDelay (lines : List (List Char)) (st : RobotsState) (d : ℚ)
    (h : (lines.foldl processLine st).1.crawlDelay = some d) :
    st.1.crawlDelay = some d ∨ ∃ l ∈ lines, crawlDelayDirective l d := by
  induction lines generalizing st with
  | nil => exact Or.inl h
  | cons l rest ih =>
    rw [List.foldl_cons] at h
    rcases ih (processLine st l) h with h1 | ⟨l', hl', hd⟩
    · rcases processLine_crawlDelay st l with h2 | ⟨d', hdir, hset⟩
      · exact Or.inl (h2 ▸ h1)
      · rw [hset] at h1
        obtain rfl : d' = d := Option.some.inj h1
        exact Or.inr ⟨l, List.mem_cons_self l rest, hdir⟩
    · exact Or.inr ⟨l', List.mem_cons_of_mem l hl', hd⟩

/-! Claim theorems. -/

/-- Claim C7 (confirmed): the empty pattern and the root pattern match every
path; a pattern extended with a trailing dollar matches exactly the path
equal to the pattern without it; any other pattern (non-empty, not the root,
no trailing dollar) matches exactly when the path starts with the pattern as
literal text, where starting-with means being an initial segment. -/
theorem claim_C7_matchesRule (p r : List Char) :
    matchesRule p [] = true ∧
    matchesRule p ['/'] = true ∧
    (matchesRule p (r ++ ['$']) = true ↔ p = r) ∧
    (r ≠ [] → r ≠ ['/'] → r.getLast? ≠ some '$' → matchesRule p r = startsWithL p r) ∧
    (startsWithL p r = true ↔ ∃ t, p = r ++ t) := by
  refine ⟨rfl, rfl, ?_, ?_, startsWithL_iff p r⟩
  · unfold matchesRule
    have h1 : (r ++ ['$']).isEmpty = false := by
      cases r <;> rfl
    have h2 : ((r ++ ['$']) == ['/']) = false := by
      rw [beq_eq_false_iff_ne]
      intro h
      have hl := congrArg List.length h
      simp at hl
      subst hl
      simp at h
    have h3 : ((r ++ ['$']).getLast? == some '$') = true := by
      rw [beq_iff_eq]
      exact List.getLast?_concat r
    simp [h1, h2, h3, List.dropLast_concat]
  · intro hne hroot hdollar
    unfold matchesRule
    have h1 : r.isEmpty = false := by
      cases r with
      | nil => exact absurd rfl hne
      | cons _ _ => rfl
    have h2 : (r == ['/']) = false := beq_eq_false_iff_ne.mpr hroot
    have h3 : (r.getLast? == some '$') = false := beq_eq_false_iff_ne.mpr hdollar
    simp [h1, h2, h3]

/-- Witness for claim C7 at a concrete path and pattern. -/
theorem claim_C7_witness :
    "/a".toList ≠ [] ∧ "/a".toList ≠ ['/'] ∧ "/a".toList.getLast? ≠ some '$' ∧
    matchesRule "/ab".toList "/a".toList = startsWithL "/ab".toList "/a".toList :=
  ⟨by decide, by decide, by decide,
    (claim_C7_matchesRule "/ab".toList "/a".toList).2.2.2.1 (by decide) (by decide) (by decide)⟩

/-- Claim C2 (confirmed): if any allow entry matches the normalized path the
result is allowed regardless of the disallow entries, and in general the
path is allowed exactly when some allow entry matches or no disallow entry
matches; in particular when neither list matches the default is allowed. -/
theorem claim_C2_allow_priority (path : List Char) (rules : RobotsRules) :
    ((∃ a ∈ rules.allow, matchesRule (normalizePath path) a = true) →
      isPathAllowed path (some rules) = true) ∧
    (isPathAllowed path (some rules) = true ↔
      (∃ a ∈ rules.allow, matchesRule (normalizePath path) a = true) ∨
      ∀ d ∈ rules.disallow, matchesRule (normalizePath path) d = false) := by
  have hch : isPathAllowed path (some rules) = true ↔
      (∃ a ∈ rules.allow, matchesRule (normalizePath path) a = true) ∨
      ∀ d ∈ rules.disallow, matchesRule (normalizePath path) d = false := by
    unfold isPathAllowed
    exact allowScan_eq_true (normalizePath path) rules.disallow rules.allow
  exact ⟨fun h => hch.mpr (Or.inl h), hch⟩

/-- Witness for claim C2: an allow entry matching the path wins over a
disallow entry that also matches it. -/
theorem claim_C2_witness :
    (∃ a ∈ (["/docs".toList] : List (List Char)),
      matchesRule (normalizePath "/docs/x".toList) a = true) ∧
    isPathAllowed "/docs/x".toList
      (some { disallow := ["/".toList], allow := ["/docs".toList], crawlDelay := none }) = true :=
  ⟨⟨"/docs".toList, by decide, by decide⟩,
    (claim_C2_allow_priority "/docs/x".toList
      { disallow := ["/".toList], allow := ["/docs".toList], crawlDelay := none }).1
      ⟨"/docs".toList, by decide, by decide⟩⟩

/-- Claim C1 counterexample: with ceiling 2 and the three-character text
abc, truncation occurs (the result is the two kept characters followed by
the marker) and the untruncated length 3 exceeds the ceiling 2, yet the
computed flag is false, because the source compares the untruncated length
with the length of the truncated content including the appended marker. -/
theorem claim_C1_counterexample :
    isTruncatedFlag "abc".toList 2 = false ∧
    2 < "abc".toList.length ∧
    truncate "abc".toList 2 = "ab...".toList := by
  refine ⟨by decide, by decide, by decide⟩

/-- Claim C1 as amended (proved): the truncation flag is true exactly when
the untruncated length exceeds the ceiling plus the marker length (the
comparison counts the appended marker); whenever the untruncated length
exceeds the ceiling, the truncated content is the kept text followed by the
marker and has length ceiling plus marker length. The HTML flag is computed
by the same expression with the HTML ceiling, so the same statement covers
it. -/
theorem claim_C1_truncation_flag (raw : List Char) (maxChars : Nat) :
    (isTruncatedFlag raw maxChars = true ↔ maxChars + ellipsis.length < raw.length) ∧
    (maxChars < raw.length →
      truncate raw maxChars = raw.take maxChars ++ ellipsis ∧
      (truncate raw maxChars).length = maxChars + ellipsis.length) := by
  constructor
  · unfold isTruncatedFlag
    rw [truncate_length]
    by_cases h : raw.length ≤ maxChars
    · simp only [h, if_pos, ite_true]
      constructor
      · intro hlt
        simp at hlt
      · intro hlt
        simp [ellipsis] at hlt
        omega
    · simp only [h, ite_false]
      simp
  · intro h
    have hnot : ¬ raw.length ≤ maxChars := by omega
    constructor
    · unfold truncate
      simp [hnot]
    · rw [truncate_length]
      simp [hnot]

/-- Witness for claim C1 at a concrete text and ceiling. -/
theorem claim_C1_witness :
    2 < "abcdef".toList.length ∧
    (truncate "abcdef".toList 2 = "abcdef".toList.take 2 ++ ellipsis ∧
      (truncate "abcdef".toList 2).length = 2 + ellipsis.length) :=
  ⟨by decide, (claim_C1_truncation_flag "abcdef".toList 2).2 (by decide)⟩

/-- Claim C10 (confirmed): on an input consisting only of whitespace (in
particular the empty input), parsePolicy returns no error, no metadata and
empty rule and guideline lists, whatever the JSON decoder would have done on
that input. -/
theorem claim_C10_blank_input (raw : List Char) (decoded : Except (List Char) Json)
    (h : ∀ c ∈ raw, jsIsWhitespace c = true) :
    parsePolicy raw decoded =
      { error := none, metadata := none, resourceRules := [], actionGuidelines := [] } := by
  unfold parsePolicy
  have hdrop : raw.dropWhile jsIsWhitespace = [] := by
    rw [List.dropWhile_eq_nil_iff]
    exact h
  have htrim : jsTrim raw = [] := by
    unfold jsTrim
    rw [hdrop]
    rfl
  rw [htrim]
  rfl

/-- Witness for claim C10 on a two-space input, with the decoder outcome
being the failure that JSON decoding of blank input produces. -/
theorem claim_C10_witness :
    (∀ c ∈ "  ".toList, jsIsWhitespace c = true) ∧
    parsePolicy "  ".toList (Except.error "Unexpected end of JSON input".toList) =
      { error := none, metadata := none, resourceRules := [], actionGuidelines := [] } :=
  ⟨by decide, claim_C10_blank_input "  ".toList _ (by decide)⟩

/-- Claim C8 (confirmed): when no line of the text opens an applicable
user-agent block (the only user-agent values present are neither the star
nor values containing the agent token case-insensitively), parseRobots
returns the empty rule set; and any run of lines none of which opens an
applicable block can be dropped from the front of the line list without
changing the parse, so directives seen before any matching user-agent line
never contribute. -/
theorem claim_C8_nonmatching_block :
    (∀ content : List Char, (∀ l ∈ jsLines content, setsApplies l = false) →
      parseRobots content = { disallow := [], allow := [], crawlDelay := none }) ∧
    (∀ pre post : List (List Char), (∀ l ∈ pre, setsApplies l = false) →
      (pre ++ post).foldl processLine initRobotsState =
        post.foldl processLine initRobotsState) := by
  constructor
  · intro content h
    unfold parseRobots initRobotsState
    rw [foldl_processLine_no_applies (jsLines content) _ h]
  · intro pre post h
    unfold initRobotsState
    rw [List.foldl_append, foldl_processLine_no_applies pre _ h]

/-- Witness for claim C8 on a block for a different bot containing disallow,
allow and crawl-delay directives: nothing leaks into the rule set. -/
theorem claim_C8_witness :
    (∀ l ∈ jsLines "user-agent: other-bot\ndisallow: /private\nallow: /p\ncrawl-delay: 2".toList,
      setsApplies l = false) ∧
    parseRobots "user-agent: other-bot\ndisallow: /private\nallow: /p\ncrawl-delay: 2".toList =
      { disallow := [], allow := [], crawlDelay := none } :=
  ⟨by decide, claim_C8_nonmatching_block.1 _ (by decide)⟩

/-- Claim C4 counterexample: the claim asserts a present crawlDelay is
non-negative, but a crawl-delay directive with value minus one is parsed as
finite by the source and stored, so the returned crawlDelay is negative. -/
theorem claim_C4_counterexample :
    (parseRobots "user-agent: *\ncrawl-delay: -1".toList).crawlDelay = some (-1) ∧
    (-1 : ℚ) < 0 := by
  refine ⟨by decide, by decide⟩

/-- Claim C4 as amended (proved): whenever the returned rule set carries a
crawl delay, that value is the finite result of parsing the value of some
crawl-delay directive line of the text (the finiteness guard is the only
check; non-negativity is not enforced and the value can be negative). -/
theorem claim_C4_crawl_delay (content : List Char) (d : ℚ)
    (h : (parseRobots content).crawlDelay = some d) :
    ∃ l ∈ jsLines content, crawlDelayDirective l d := by
  unfold parseRobots at h
  rcases foldl_crawlDelay (jsLines content) initRobotsState d h with h1 | h2
  · exact absurd h1 (by simp [initRobotsState])
  · exact h2

/-- Witness for claim C4 on a file carrying a fractional crawl delay. -/
theorem claim_C4_witness :
    (parseRobots "user-agent: *\ncrawl-delay: 2.5".toList).crawlDelay = some (mkRat 25 10) ∧
    ∃ l ∈ jsLines "user-agent: *\ncrawl-delay: 2.5".toList,
      crawlDelayDirective l (mkRat 25 10) :=
  ⟨by decide, claim_C4_crawl_delay _ _ (by decide)⟩

theorem isStringField_iff (j : Json) (k : List Char) :
    isStringField j k = true ↔ ∃ v, jsField j k = some (Json.str v) := by
  unfold isStringField
  split
  · next v heq => exact iff_of_true rfl ⟨v, heq⟩
  · next hne =>
    constructor
    · intro h
      cases h
    · rintro ⟨v, hv⟩
      exact absurd hv (hne v)

theorem isBoolField_iff (j : Json) (k : List Char) :
    isBoolField j k = true ↔ ∃ b, jsField j k = some (Json.bool b) := by
  unfold isBoolField
  split
  · next b heq => exact iff_of_true rfl ⟨b, heq⟩
  · next hne =>
    constructor
    · intro h
      cases h
    · rintro ⟨b, hb⟩
      exact absurd hb (hne b)

theorem ruleFilter_encodeRule (r : ResourceRule) : ruleFilter (encodeRule r) = true := by
  cases r with
  | mk v s a m => cases m <;> rfl

theorem extractRule_encodeRule (r : ResourceRule) : extractRule (encodeRule r) = r := by
  cases r with
  | mk v s a m => cases m <;> rfl

theorem guidelineFilter_encodeGuideline (g : Guideline) :
    guidelineFilter (encodeGuideline g) = true := by
  cases g with
  | mk d s e => cases e <;> rfl

theorem extractGuideline_encodeGuideline (g : Guideline) :
    extractGuideline (encodeGuideline g) = g := by
  cases g with
  | mk d s e => cases e <;> rfl

theorem filter_map_encodeRule (rs : List ResourceRule) :
    ((rs.map encodeRule).filter ruleFilter).map extractRule = rs := by
  induction rs with
  | nil => rfl
  | cons r rest ih =>
    simp [List.filter_cons, ruleFilter_encodeRule r, extractRule_encodeRule r, ih]

theorem filter_map_encodeGuideline (gs : List Guideline) :
    ((gs.map encodeGuideline).filter guidelineFilter).map extractGuideline = gs := by
  induction gs with
  | nil => rfl
  | cons g rest ih =>
    simp [List.filter_cons, guidelineFilter_encodeGuideline g, extractGuideline_encodeGuideline g, ih]

theorem parse_build_raw (state : QuickBuilderState) (now : List Char) :
    parsePolicyData (buildQuickPolicy state now) =
      { error := none
        metadata := some (buildMetadata state now)
        resourceRules :=
          (((quickRules state).map encodeRule).filter ruleFilter).map extractRule
        actionGuidelines :=
          (((quickGuidelines state).map encodeGuideline).filter guidelineFilter).map
            extractGuideline } := rfl

theorem parse_build_roundtrip (state : QuickBuilderState) (now : List Char) :
    parsePolicyData (buildQuickPolicy state now) =
      { error := none
        metadata := some (buildMetadata state now)
        resourceRules := quickRules state
        actionGuidelines := quickGuidelines state } := by
  rw [parse_build_raw state now, filter_map_encodeRule, filter_map_encodeGuideline]

/-- Claim C3 (confirmed): parsing the document built by the quick builder
never yields an error and recovers exactly the resource rules and action
guidelines the builder emitted, for every configuration and build
timestamp. -/
theorem claim_C3_roundtrip (state : QuickBuilderState) (now : List Char) :
    (parsePolicyData (buildQuickPolicy state now)).error = none ∧
    (parsePolicyData (buildQuickPolicy state now)).resourceRules = quickRules state ∧
    (parsePolicyData (buildQuickPolicy state now)).actionGuidelines = quickGuidelines state := by
  rw [parse_build_roundtrip state now]
  exact ⟨rfl, rfl, rfl⟩

/-- Witness for claim C3 at the default builder configuration. -/
theorem claim_C3_witness :
    (parsePolicyData (buildQuickPolicy DEFAULT_QUICK_STATE "2026-02-03T04:05:06.000Z".toList)).error
        = none ∧
    (parsePolicyData
        (buildQuickPolicy DEFAULT_QUICK_STATE "2026-02-03T04:05:06.000Z".toList)).resourceRules
        = quickRules DEFAULT_QUICK_STATE ∧
    (parsePolicyData
        (buildQuickPolicy DEFAULT_QUICK_STATE "2026-02-03T04:05:06.000Z".toList)).actionGuidelines
        = quickGuidelines DEFAULT_QUICK_STATE :=
  claim_C3_roundtrip DEFAULT_QUICK_STATE "2026-02-03T04:05:06.000Z".toList

/-- Claim C6 (confirmed): for every builder configuration and timestamp, the
parsed build output contains an execute-script rule and an upload-file rule,
both disallowed, and every rule with either of those verbs is disallowed, so
no configuration can make them allowed. -/
theorem claim_C6_hardcoded_deny (state : QuickBuilderState) (now : List Char) :
    (∃ r ∈ (parsePolicyData (buildQuickPolicy state now)).resourceRules,
      r.verb = "execute_script".toList ∧ r.allowed = false) ∧
    (∃ r ∈ (parsePolicyData (buildQuickPolicy state now)).resourceRules,
      r.verb = "upload_file".toList ∧ r.allowed = false) ∧
    (∀ r ∈ (parsePolicyData (buildQuickPolicy state now)).resourceRules,
      (r.verb = "execute_script".toList ∨ r.verb = "upload_file".toList) →
        r.allowed = false) := by
  have hres : (parsePolicyData (buildQuickPolicy state now)).resourceRules = quickRules state := by
    rw [parse_build_roundtrip state now]
  rw [hres]
  refine ⟨?_, ?_, ?_⟩
  · exact ⟨{ verb := "execute_script".toList, selector := "*".toList, allowed := false,
             modifiers := none },
      by simp [quickRules], rfl, rfl⟩
  · exact ⟨{ verb := "upload_file".toList, selector := "input[type=\x27file\x27]".toList,
             allowed := false, modifiers := none },
      by simp [quickRules], rfl, rfl⟩
  · intro r hr hverb
    simp only [quickRules, List.mem_cons, List.not_mem_nil, or_false] at hr
    rcases hr with rfl | rfl | rfl | rfl | rfl | rfl | rfl | rfl
    · rcases hverb with hv | hv
      · exact absurd hv (show ¬("read_content".toList = "execute_script".toList) by decide)
      · exact absurd hv (show ¬("read_content".toList = "upload_file".toList) by decide)
    · rcases hverb with hv | hv
      · exact absurd hv (show ¬("read_metadata".toList = "execute_script".toList) by decide)
      · exact absurd hv (show ¬("read_metadata".toList = "upload_file".toList) by decide)
    · rcases hverb with hv | hv
      · exact absurd hv (show ¬("follow_link".toList = "execute_script".toList) by decide)
      · exact absurd hv (show ¬("follow_link".toList = "upload_file".toList) by decide)
    · rcases hverb with hv | hv
      · exact absurd hv (show ¬("set_input_value".toList = "execute_script".toList) by decide)
      · exact absurd hv (show ¬("set_input_value".toList = "upload_file".toList) by decide)
    · rcases hverb with hv | hv
      · exact absurd hv (show ¬("submit_form".toList = "execute_script".toList) by decide)
      · exact absurd hv (show ¬("submit_form".toList = "upload_file".toList) by decide)
    · rfl
    · rfl
    · rcases hverb with hv | hv
      · exact absurd hv (show ¬("download_file".toList = "execute_script".toList) by decide)
      · exact absurd hv (show ¬("download_file".toList = "upload_file".toList) by decide)

/-- Witness for claim C6 at the default builder configuration. -/
theorem claim_C6_witness :
    (∃ r ∈ (parsePolicyData
        (buildQuickPolicy DEFAULT_QUICK_STATE "2026-02-03T04:05:06.000Z".toList)).resourceRules,
      r.verb = "execute_script".toList ∧ r.allowed = false) ∧
    (∃ r ∈ (parsePolicyData
        (buildQuickPolicy DEFAULT_QUICK_STATE "2026-02-03T04:05:06.000Z".toList)).resourceRules,
      r.verb = "upload_file".toList ∧ r.allowed = false) ∧
    (∀ r ∈ (parsePolicyData
        (buildQuickPolicy DEFAULT_QUICK_STATE "2026-02-03T04:05:06.000Z".toList)).resourceRules,
      (r.verb = "execute_script".toList ∨ r.verb = "upload_file".toList) →
        r.allowed = false) :=
  claim_C6_hardcoded_deny DEFAULT_QUICK_STATE "2026-02-03T04:05:06.000Z".toList

/-- Claim C5 counterexample: a metadata value that is an array (not a plain
object) passes the typeof-object-and-truthy check of the source and is
carried into the parse result, refuting the claim that only plain objects
pass through. -/
theorem claim_C5_counterexample :
    (parsePolicyData (Json.obj [("metadata".toList, Json.arr [])])).metadata =
      some (Json.arr []) ∧
    ∀ fs, Json.arr ([] : List Json) ≠ Json.obj fs := by
  refine ⟨rfl, ?_⟩
  intro fs h
  exact Json.noConfusion h

/-- Claim C5 as amended (proved): the parse result carries a metadata value
exactly when the decoded input is an object whose metadata field is present
and is itself either an object or an array (the values of JS typeof object
that are truthy); null, absent and primitive metadata are dropped. -/
theorem claim_C5_metadata (data m : Json) :
    (parsePolicyData data).metadata = some m ↔
      ∃ fs, data = Json.obj fs ∧ lookupField "metadata".toList fs = some m ∧
        ((∃ gs, m = Json.obj gs) ∨ ∃ xs, m = Json.arr xs) := by
  cases data with
  | null => simp [parsePolicyData]
  | bool b => simp [parsePolicyData, jsField]
  | num q => simp [parsePolicyData, jsField]
  | str s => simp [parsePolicyData, jsField]
  | arr xs => simp [parsePolicyData, jsField]
  | obj fs =>
    simp only [parsePolicyData, jsField, Json.obj.injEq]
    cases hlk : lookupField "metadata".toList fs with
    | none =>
      constructor
      · intro h
        cases h
      · rintro ⟨fs', rfl, hlk', _⟩
        rw [hlk] at hlk'
        cases hlk'
    | some mv =>
      cases mv with
      | null =>
        simp only [jsTypeofIsObject, jsTruthy, Bool.and_false]
        constructor
        · intro h
          cases h
        · rintro ⟨fs', rfl, hlk', hcond | hcond⟩ <;>
            · rw [hlk] at hlk'
              obtain rfl := Option.some.inj hlk'
              rcases hcond with ⟨w, hw⟩
              cases hw
      | bool b =>
        simp only [jsTypeofIsObject, jsTruthy, Bool.false_and]
        constructor
        · intro h
          cases h
        · rintro ⟨fs', rfl, hlk', hcond | hcond⟩ <;>
            · rw [hlk] at hlk'
              obtain rfl := Option.some.inj hlk'
              rcases hcond with ⟨w, hw⟩
              cases hw
      | num q =>
        simp only [jsTypeofIsObject, jsTruthy, Bool.false_and]
        constructor
        · intro h
          cases h
        · rintro ⟨fs', rfl, hlk', hcond | hcond⟩ <;>
            · rw [hlk] at hlk'
              obtain rfl := Option.some.inj hlk'
              rcases hcond with ⟨w, hw⟩
              cases hw
      | str s =>
        simp only [jsTypeofIsObject, jsTruthy, Bool.false_and]
        constructor
        · intro h
          cases h
        · rintro ⟨fs', rfl, hlk', hcond | hcond⟩ <;>
            · rw [hlk] at hlk'
              obtain rfl := Option.some.inj hlk'
              rcases hcond with ⟨w, hw⟩
              cases hw
      | arr elems =>
        simp only [jsTypeofIsObject, jsTruthy, Bool.and_self, if_true, Option.some.injEq]
        constructor
        · rintro rfl
          exact ⟨fs, rfl, hlk, Or.inr ⟨elems, rfl⟩⟩
        · rintro ⟨fs', rfl, hlk', _⟩
          rw [hlk] at hlk'
          exact Option.some.inj hlk'
      | obj gs =>
        simp only [jsTypeofIsObject, jsTruthy, Bool.and_self, if_true, Option.some.injEq]
        constructor
        · rintro rfl
          exact ⟨fs, rfl, hlk, Or.inl ⟨gs, rfl⟩⟩
        · rintro ⟨fs', rfl, hlk', _⟩
          rw [hlk] at hlk'
          exact Option.some.inj hlk'

/-- Witness for claim C5: an object metadata value passes through. -/
theorem claim_C5_witness :
    (parsePolicyData (Json.obj [("metadata".toList, Json.obj [])])).metadata =
      some (Json.obj []) :=
  (claim_C5_metadata (Json.obj [("metadata".toList, Json.obj [])]) (Json.obj [])).mpr
    ⟨[("metadata".toList, Json.obj [])], rfl, rfl, Or.inl ⟨[], rfl⟩⟩

/-- Claim C9 (confirmed): a resource-rule candidate is kept exactly when it
is an object with a string verb, a string selector and a boolean allowed; a
guideline candidate is kept exactly when it is an object with a string
directive and a string description; the modifiers value is passed through
unvalidated; parsing a structurally valid JSON object never produces an
error; and the concrete input whose single rule has only a verb yields empty
resource rules and no error. -/
theorem claim_C9_tolerant_filter :
    (∀ j : Json, ruleFilter j = true ↔
      ∃ fs, j = Json.obj fs ∧
        (∃ v, lookupField "verb".toList fs = some (Json.str v)) ∧
        (∃ s, lookupField "selector".toList fs = some (Json.str s)) ∧
        ∃ b, lookupField "allowed".toList fs = some (Json.bool b)) ∧
    (∀ j : Json, guidelineFilter j = true ↔
      ∃ fs, j = Json.obj fs ∧
        (∃ d, lookupField "directive".toList fs = some (Json.str d)) ∧
        ∃ s, lookupField "description".toList fs = some (Json.str s)) ∧
    (∀ j : Json, (extractRule j).modifiers = jsField j "modifiers".toList) ∧
    (∀ fs, (parsePolicyData (Json.obj fs)).error = none) ∧
    parsePolicyData (Json.obj [("resource_rules".toList,
        Json.arr [Json.obj [("verb".toList, Json.str "x".toList)]])]) =
      { error := none, metadata := none, resourceRules := [], actionGuidelines := [] } := by
  refine ⟨?_, ?_, fun j => rfl, fun fs => rfl, rfl⟩
  · intro j
    cases j with
    | null => simp [ruleFilter, jsTruthy]
    | bool b => simp [ruleFilter, isStringField, jsField]
    | num q => simp [ruleFilter, isStringField, jsField]
    | str s => simp [ruleFilter, isStringField, jsField]
    | arr xs => simp [ruleFilter, isStringField, jsField]
    | obj fs =>
      simp [ruleFilter, jsTruthy, isStringField_iff, isBoolField_iff, jsField, Json.obj.injEq]
      exact and_assoc
  · intro j
    cases j with
    | null => simp [guidelineFilter, jsTruthy]
    | bool b => simp [guidelineFilter, isStringField, jsField]
    | num q => simp [guidelineFilter, isStringField, jsField]
    | str s => simp [guidelineFilter, isStringField, jsField]
    | arr xs => simp [guidelineFilter, isStringField, jsField]
    | obj fs =>
      simp [guidelineFilter, jsTruthy, isStringField_iff, jsField, Json.obj.injEq]

/-- Witness for claim C9: a complete candidate rule object passes the
filter. -/
theorem claim_C9_witness :
    ruleFilter (Json.obj [("verb".toList, Json.str "read_content".toList),
      ("selector".toList, Json.str "*".toList),
      ("allowed".toList, Json.bool true)]) = true :=
  (claim_C9_tolerant_filter.1 _).mpr
    ⟨[("verb".toList, Json.str "read_content".toList),
      ("selector".toList, Json.str "*".toList),
      ("allowed".toList, Json.bool true)], rfl,
      ⟨"read_content".toList, rfl⟩, ⟨"*".toList, rfl⟩, ⟨true, rfl⟩⟩

end AgentPermissions
